import Mathlib

/-!
Shallow embedding of the client-side interaction layer in `script.js`
(utilities, audio player, modal, forms, FAQ accordion, smooth scrolling,
orchestrated initialization), together with theorems settling the
behavioural claims about it.  Strings are modelled as `List Char`,
timers by explicit (time, payload) event lists, and the DOM state that
each handler touches by small structures.  Definitions come first,
theorems after.
-/

namespace Pot

/-! Definitions: utility helpers (`utils` in script.js). -/

/-- The character class of `\s` in JavaScript regular expressions
(whitespace as used by `utils.isValidEmail`). -/
def jsWhitespace (c : Char) : Bool :=
  c == ' ' || c == '\t' || c == '\n' || c == '\x0b' || c == '\x0c' || c == '\r'
  || c.val == 0xA0 || c.val == 0x1680 || (0x2000 ≤ c.val && c.val ≤ 0x200A)
  || c.val == 0x2028 || c.val == 0x2029 || c.val == 0x202F || c.val == 0x205F
  || c.val == 0x3000 || c.val == 0xFEFF

/-- The character class `[^\s@]` of the email regular expression:
neither whitespace nor the at sign. -/
def emailAtomChar (c : Char) : Bool :=
  !jsWhitespace c && c != '@'

/-- Predicate holding when the list contains a dot that is not its last
element, i.e. `l = C ++ dot :: D` with `D` nonempty. -/
def dotNotLast : List Char → Bool
  | [] => false
  | [_] => false
  | c :: d :: rest => c == '.' || dotNotLast (d :: rest)

/-- Predicate holding when `b = C ++ dot :: D` with `C` and `D`
nonempty: a dot that is neither first nor last. -/
def interiorDot : List Char → Bool
  | [] => false
  | _ :: t => dotNotLast t

/-- Embeds `utils.isValidEmail`: tests the string against the regular
expression `^[^\s@]+@[^\s@]+\.[^\s@]+$`.  Because `@` is excluded from
the class, the run before `@` is forced to be the maximal
`emailAtomChar` prefix; the part after `@` must consist of
`emailAtomChar` characters (the dot itself is in the class) and contain
a dot at an interior position. -/
def isValidEmail (s : List Char) : Bool :=
  match s.dropWhile emailAtomChar with
  | c :: b =>
      !(s.takeWhile emailAtomChar).isEmpty && (c == '@')
        && b.all emailAtomChar && interiorDot b
  | [] => false

/-- The decomposition the regular expression
`^[^\s@]+@[^\s@]+\.[^\s@]+$` actually accepts: three nonempty runs of
characters that are neither whitespace nor `@`, separated by a literal
`@` and a literal dot. -/
def EmailPattern (s : List Char) : Prop :=
  ∃ r1 r2 r3 : List Char,
    s = r1 ++ '@' :: (r2 ++ '.' :: r3) ∧
    r1 ≠ [] ∧ r2 ≠ [] ∧ r3 ≠ [] ∧
    (∀ c ∈ r1, emailAtomChar c = true) ∧
    (∀ c ∈ r2, emailAtomChar c = true) ∧
    (∀ c ∈ r3, emailAtomChar c = true)

/-- The decomposition claimed by the specification, taken at its word:
three nonempty runs of merely NON-WHITESPACE characters, separated by a
literal `@` and a literal dot. -/
def SpecEmailPattern (s : List Char) : Prop :=
  ∃ r1 r2 r3 : List Char,
    s = r1 ++ '@' :: (r2 ++ '.' :: r3) ∧
    r1 ≠ [] ∧ r2 ≠ [] ∧ r3 ≠ [] ∧
    (∀ c ∈ r1, jsWhitespace c = false) ∧
    (∀ c ∈ r2, jsWhitespace c = false) ∧
    (∀ c ∈ r3, jsWhitespace c = false)

/-! Definitions: orchestrator (`PrismOfTorah.initializeComponents`). -/

/-- Embeds `PrismOfTorah.initializeComponents`: runs every component's
`init()` in the fixed order inside one `try { ... } catch` block.
The argument lists each `init()`'s behaviour in order (`Except.ok` for
a normal return, `Except.error` for a throw); the result is the number
of `init()` calls that ran to completion and the error logged by the
`catch` block, if any.  A throw transfers control straight to `catch`,
so no `init()` after the throwing one runs. -/
def initializeComponents {ε : Type} : List (Except ε Unit) → Nat × Option ε
  | [] => (0, none)
  | Except.ok _ :: rest =>
      ((initializeComponents rest).1 + 1, (initializeComponents rest).2)
  | Except.error e :: _ => (0, some e)

/-- Whether one component's `init()` returned normally. -/
def exceptOk {ε : Type} : Except ε Unit → Bool
  | Except.ok _ => true
  | Except.error _ => false

/-- The claim's guarantee, as stated: every non-throwing component is
initialized even when a component before it throws. -/
def InitRunsAllNonThrowing {ε : Type} (inits : List (Except ε Unit)) : Prop :=
  (initializeComponents inits).1 = inits.countP exceptOk

/-! Definitions: indexed traversal helper.  Both `AudioPlayer` and
`FAQ` loop over a fixed node list and treat the clicked element
differently from all the others; `mapIdxFrom f k l` models such a
`forEach` with the running index starting at `k`. -/

/-- Pointwise update of a node list, passing the running index. -/
def mapIdxFrom {α : Type} (f : Nat → α → α) : Nat → List α → List α
  | _, [] => []
  | k, a :: l => f k a :: mapIdxFrom f (k + 1) l

/-! Definitions: AudioPlayer. -/

/-- The per-player closure state of `AudioPlayer.initializePlayer`
(`isPlaying`, `progress`, `duration`) together with the visual state of
its play button (`btnPause` is true when the button shows the pause
icon with label "Pause episode"). -/
structure PlayerSt where
  isPlaying : Bool
  btnPause : Bool
  progress : Nat
  duration : Nat
deriving DecidableEq

/-- The play-button click handler of player `i`: toggles that player's
`isPlaying` closure flag; when the flag becomes true, `playAudio`
resets every OTHER player's play button to the play icon/label and the
clicked button shows pause; when it becomes false, only the clicked
button is reset.  No other player's `isPlaying` flag is touched. -/
def clickPlay (ps : List PlayerSt) (i : Nat) : List PlayerSt :=
  match ps.get? i with
  | none => ps
  | some pi =>
      mapIdxFrom (fun k p =>
        if k = i then { p with isPlaying := !pi.isPlaying, btnPause := !pi.isPlaying }
        else if !pi.isPlaying then { p with btnPause := false } else p) 0 ps

/-- A sequence of play-button clicks, by player index. -/
def runClicks (ps : List PlayerSt) : List Nat → List PlayerSt
  | [] => ps
  | i :: rest => runClicks (clickPlay ps i) rest

/-- The 1000 ms `updateProgress` tick of one player: adds one second
while playing and not yet at the parsed duration. -/
def updateProgress (p : PlayerSt) : PlayerSt :=
  if p.isPlaying && decide (p.progress < p.duration) then
    { p with progress := p.progress + 1 }
  else p

/-! Definitions: FAQ accordion. -/

/-- The ARIA state of one FAQ item: `expanded` is the question's
`aria-expanded`, `hidden` the answer's `aria-hidden`. -/
structure FaqItem where
  expanded : Bool
  hidden : Bool
deriving DecidableEq

/-- The question click handler of `FAQ.setupAccordions` on item `i`
(Enter/Space triggers the same click): reads the clicked question's
expanded flag, sets every OTHER item to collapsed
(`aria-expanded=false`, `aria-hidden=true`), then toggles the clicked
item to the logical negation of what it was. -/
def faqClick (items : List FaqItem) (i : Nat) : List FaqItem :=
  match items.get? i with
  | none => items
  | some it =>
      mapIdxFrom (fun k _ =>
        if k = i then ⟨!it.expanded, it.expanded⟩ else ⟨false, true⟩) 0 items

/-- A sequence of question clicks, by item index. -/
def runFaqClicks (items : List FaqItem) : List Nat → List FaqItem
  | [] => items
  | i :: rest => runFaqClicks (faqClick items i) rest

/-! Definitions: modal email-capture submission. -/

/-- The state `Modal.handleEmailSubmission` reads and writes: the
inline form error text, the submit button's disabled flag and label,
and whether the modal is open (`aria-hidden=false`). -/
structure EmailFormState where
  errorText : String
  btnDisabled : Bool
  btnText : String
  modalOpen : Bool
deriving DecidableEq

/-- Externally observable actions of the email submission flow. -/
inductive ModalEffect
  | announce (msg : String)
  | submitEmail (email : List Char)
  | closeModal
  | formReset
deriving DecidableEq

/-- Embeds `Modal.handleEmailSubmission`: clears the previous inline
error; if the email fails `isValidEmail` it writes the inline error,
announces it and returns; otherwise it disables the button, shows the
submitting label and awaits the `submitEmail` stub, whose outcome
(`stubFails`) selects the success path (success label, announcement,
and — after the 2000 ms timeout, collapsed here — modal close, form
reset and button restore) or the failure path (inline error, button
restore, announcement).  Returns the resulting state and the effects
performed. -/
def handleEmailSubmission (st : EmailFormState) (email : List Char)
    (stubFails : Bool) : EmailFormState × List ModalEffect :=
  let cleared : EmailFormState := { st with errorText := "" }
  if !(isValidEmail email) then
    ({ cleared with errorText := "Please enter a valid email address" },
      [ModalEffect.announce ("Please enter a valid email address")])
  else if stubFails then
    ({ cleared with
        errorText := "Something went wrong. Please try again."
        btnDisabled := false
        btnText := st.btnText },
      [ModalEffect.submitEmail email,
       ModalEffect.announce ("Subscription failed. Please try again.")])
  else
    ({ cleared with
        btnDisabled := false
        btnText := st.btnText
        modalOpen := false },
      [ModalEffect.submitEmail email,
       ModalEffect.announce ("Successfully subscribed to newsletter"),
       ModalEffect.closeModal, ModalEffect.formReset])

/-! Definitions: forms (field validation and contact submission). -/

/-- A form field as `Forms.validateField` sees it: its `required`
attribute, its current value and whether it is an email-typed input. -/
structure Field where
  required : Bool
  value : List Char
  isEmailType : Bool
deriving DecidableEq

/-- JS `String.prototype.trim` yields the empty string exactly when
every character is whitespace. -/
def trimEmpty (v : List Char) : Bool := v.all jsWhitespace

/-- Embeds `Forms.validateField`, reduced to its returned verdict and
the message written to the field's error element: a required field
whose trimmed value is empty is invalid with the required message; an
email-typed field with a nonempty, malformed value is invalid with the
format message (overwriting the previous message); anything else is
valid. -/
def validateField (f : Field) : Bool × String :=
  let r1 : Bool × String :=
    if f.required && trimEmpty f.value then (false, "This field is required")
    else (true, "")
  if f.isEmailType && !f.value.isEmpty && !(isValidEmail f.value) then
    (false, "Please enter a valid email address")
  else r1

/-- Externally observable actions of the contact submission flow. -/
inductive FormEffect
  | announce (msg : String)
  | submitContactForm
  | formReset
deriving DecidableEq

/-- The submit button state `Forms.handleContactSubmission` touches. -/
structure SubmitBtn where
  disabled : Bool
  text : String
deriving DecidableEq

/-- Embeds `Forms.handleContactSubmission`: validates every required
field; if any is invalid it announces a correction request and returns
without touching the button; otherwise it disables the button, awaits
the always-resolving `submitContactForm` stub, announces success and —
after the 3000 ms timeout, collapsed here — resets the form and
restores the button. -/
def handleContactSubmission (btn : SubmitBtn) (inputs : List Field) :
    SubmitBtn × List FormEffect :=
  if !(inputs.all fun f => (validateField f).1) then
    (btn, [FormEffect.announce ("Please correct the errors in the form")])
  else
    ({ btn with disabled := false, text := btn.text },
      [FormEffect.submitContactForm,
       FormEffect.announce ("Message sent successfully. We will respond within 48 hours."),
       FormEffect.formReset])

/-! Definitions: timing wrappers `utils.debounce` and `utils.throttle`.
Calls to a wrapper are modelled as a time-ordered list of
(timestamp, argument) pairs; the result is the list of
(timestamp, argument) invocations of the wrapped function.  The single
threaded event loop runs a due timer before any strictly later call. -/

/-- Embeds `utils.debounce(func, wait)` run over a call trace.  The
closure variable `timeout` is the pending deferred call (fire time and
the arguments it captured); each wrapper call clears it and schedules
`func` at its own time plus `wait`; a pending timer whose fire time has
arrived before the next call fires.  After the last call the remaining
pending timer fires. -/
def debounceRun {α : Type} (wait : Nat) :
    List (Nat × α) → Option (Nat × α) → List (Nat × α)
  | [], none => []
  | [], some p => [p]
  | (t, a) :: rest, none => debounceRun wait rest (some (t + wait, a))
  | (t, a) :: rest, some (ft, pa) =>
      if ft ≤ t then (ft, pa) :: debounceRun wait rest (some (t + wait, a))
      else debounceRun wait rest (some (t + wait, a))

/-- A fresh debounce wrapper (no pending timer) over a call trace. -/
def debounce {α : Type} (wait : Nat) (calls : List (Nat × α)) : List (Nat × α) :=
  debounceRun wait calls none

/-- A burst: consecutive calls in order, each strictly within `wait`
of the previous one. -/
def burst {α : Type} (wait : Nat) : List (Nat × α) → Bool
  | (t1, _) :: (t2, a2) :: rest =>
      decide (t1 ≤ t2) && decide (t2 < t1 + wait) && burst wait ((t2, a2) :: rest)
  | _ => true

/-- Embeds `utils.throttle(func, limit)` run over a call trace.  The
closure flag `inThrottle` is modelled by the time at which the pending
`setTimeout` clears it (`none` when clear): a call while clear fires
`func` immediately, synchronously, with that call's arguments, and
blocks further calls until its own time plus `limit`; a call while
blocked is discarded. -/
def throttleRun {α : Type} (limit : Nat) :
    List (Nat × α) → Option Nat → List (Nat × α)
  | [], _ => []
  | (t, a) :: rest, none => (t, a) :: throttleRun limit rest (some (t + limit))
  | (t, a) :: rest, some r =>
      if r ≤ t then (t, a) :: throttleRun limit rest (some (t + limit))
      else throttleRun limit rest (some r)

/-- A fresh throttle wrapper (flag clear) over a call trace. -/
def throttle {α : Type} (limit : Nat) (calls : List (Nat × α)) : List (Nat × α) :=
  throttleRun limit calls none

/-! Definitions: smooth scrolling (`Navigation.setupSmoothScrolling`). -/

/-- A thrown JavaScript runtime error. -/
inductive JsError
  | typeError
deriving DecidableEq

/-- The click handler `Navigation.setupSmoothScrolling` installs on a
same-page fragment link.  `targetOffsetTop` is `some` of the target's
`offsetTop` when the fragment's target exists; `header` is `some` of
the header element's `offsetHeight` when an element of class `header`
exists.  When the target exists, the handler reads the header
element's `offsetHeight || 0`: the `|| 0` only replaces a falsy
`offsetHeight`, so when no header element exists the member access on
`null` throws a TypeError.  Returns the scroll destination (`some`
when the handler scrolls, `none` when the click is left alone) or the
thrown error. -/
def smoothScrollClick (targetOffsetTop : Option Int) (header : Option Int) :
    Except JsError (Option Int) :=
  match targetOffsetTop with
  | none => Except.ok none
  | some top =>
      match header with
      | none => Except.error JsError.typeError
      | some h =>
          let headerHeight : Int := if h = 0 then 0 else h
          Except.ok (some (top - headerHeight - 20))

/-! Theorems: the email regular expression (C4). -/

theorem dotNotLast_iff : ∀ l : List Char,
    dotNotLast l = true ↔ ∃ C D, l = C ++ '.' :: D ∧ D ≠ []
  | [] => by
    simp only [dotNotLast]
    constructor
    · intro h; simp at h
    · rintro ⟨C, D, h, -⟩; cases C <;> simp at h
  | [x] => by
    simp only [dotNotLast]
    constructor
    · intro h; simp at h
    · rintro ⟨C, D, h, hD⟩
      cases C with
      | nil =>
        simp only [List.nil_append, List.cons.injEq] at h
        exact (hD h.2.symm).elim
      | cons c0 C' =>
        simp only [List.cons_append, List.cons.injEq] at h
        obtain ⟨-, h2⟩ := h
        cases C' <;> simp at h2
  | c :: d :: rest => by
    simp only [dotNotLast, Bool.or_eq_true, beq_iff_eq]
    constructor
    · rintro (rfl | h)
      · exact ⟨[], d :: rest, rfl, by simp⟩
      · obtain ⟨C, D, heq, hD⟩ := (dotNotLast_iff (d :: rest)).mp h
        exact ⟨c :: C, D, by rw [List.cons_append, ← heq], hD⟩
    · rintro ⟨C, D, hEq, hD⟩
      cases C with
      | nil =>
        injection hEq with h1 _
        exact Or.inl h1
      | cons c0 C' =>
        injection hEq with _ h2
        exact Or.inr ((dotNotLast_iff (d :: rest)).mpr ⟨C', D, h2, hD⟩)

theorem interiorDot_iff (b : List Char) :
    interiorDot b = true ↔ ∃ C D, b = C ++ '.' :: D ∧ C ≠ [] ∧ D ≠ [] := by
  cases b with
  | nil =>
    simp only [interiorDot]
    constructor
    · intro h; simp at h
    · rintro ⟨C, D, h, -, -⟩; cases C <;> simp at h
  | cons x t =>
    simp only [interiorDot]
    rw [dotNotLast_iff]
    constructor
    · rintro ⟨C, D, rfl, hD⟩
      exact ⟨x :: C, D, rfl, by simp, hD⟩
    · rintro ⟨C, D, hEq, hC, hD⟩
      cases C with
      | nil => exact absurd rfl hC
      | cons c0 C' =>
        injection hEq with _ h2
        exact ⟨C', D, h2, hD⟩

theorem takeWhile_run (p : Char → Bool) (A : List Char) (x : Char) (B : List Char)
    (hA : ∀ c ∈ A, p c = true) (hx : p x = false) :
    (A ++ x :: B).takeWhile p = A ∧ (A ++ x :: B).dropWhile p = x :: B := by
  induction A with
  | nil =>
    simp [List.takeWhile_cons, List.dropWhile_cons, hx]
  | cons a A ih =>
    have ha : p a = true := hA a (List.mem_cons_self a A)
    have ih' := ih fun c hc => hA c (List.mem_cons_of_mem a hc)
    simp [List.takeWhile_cons, List.dropWhile_cons, ha, ih'.1, ih'.2]

/-- The regular-expression test `isValidEmail` accepts exactly the
strings of the form "atom-run, at sign, atom-run, dot, atom-run" where
an atom is any character that is neither whitespace nor the at sign. -/
theorem isValidEmail_iff (s : List Char) :
    isValidEmail s = true ↔ EmailPattern s := by
  constructor
  · intro h
    rw [isValidEmail] at h
    split at h
    case h_2 => exact absurd h (by simp)
    case h_1 c b hdrop =>
      simp only [Bool.and_eq_true, Bool.not_eq_true', List.isEmpty_eq_false,
        beq_iff_eq, List.all_eq_true] at h
      obtain ⟨⟨⟨hne, hc⟩, hall⟩, hdot⟩ := h
      subst hc
      obtain ⟨C, D, hb, hC, hD⟩ := (interiorDot_iff b).mp hdot
      refine ⟨s.takeWhile emailAtomChar, C, D, ?_, hne, hC, hD, ?_, ?_, ?_⟩
      · conv_lhs => rw [← List.takeWhile_append_dropWhile (p := emailAtomChar) (l := s)]
        rw [hdrop, hb]
      · exact fun c hc => List.mem_takeWhile_imp hc
      · exact fun c hc => hall c (by rw [hb]; exact List.mem_append_left _ hc)
      · exact fun c hc => hall c (by rw [hb]; exact List.mem_append_right _ (List.mem_cons_of_mem _ hc))
  · rintro ⟨r1, r2, r3, rfl, h1, h2, h3, ha1, ha2, ha3⟩
    have hat : emailAtomChar '@' = false := by decide
    have hdotc : emailAtomChar '.' = true := by decide
    obtain ⟨htake, hdrop⟩ := takeWhile_run emailAtomChar r1 '@' (r2 ++ '.' :: r3) ha1 hat
    rw [isValidEmail, hdrop]
    simp only [htake, Bool.and_eq_true, Bool.not_eq_true', List.isEmpty_eq_false,
      beq_iff_eq, List.all_eq_true]
    refine ⟨⟨⟨h1, by simp⟩, ?_⟩, ?_⟩
    · intro c hc
      rcases List.mem_append.mp hc with hm | hm
      · exact ha2 c hm
      · rcases List.mem_cons.mp hm with rfl | hm
        · exact hdotc
        · exact ha3 c hm
    · exact (interiorDot_iff _).mpr ⟨r2, r3, rfl, h2, h3⟩

/-- C4 counterexample: the string "a@@b.co" decomposes into three
nonempty non-whitespace runs around a literal at sign and a literal
dot (take the middle run to be "@b"), so the claim's characterisation
accepts it, yet `isValidEmail` rejects it because the regex class
`[^\s@]` also excludes `@`. -/
theorem isValidEmail_nonwhitespace_cex :
    SpecEmailPattern ['a', '@', '@', 'b', '.', 'c', 'o']
      ∧ isValidEmail ['a', '@', '@', 'b', '.', 'c', 'o'] = false := by
  constructor
  · exact ⟨['a'], ['@', 'b'], ['c', 'o'], rfl, by decide, by decide, by decide,
      by decide, by decide, by decide⟩
  · decide

/-- C4 (amended): `isValidEmail s` holds exactly when `s` consists of a
run of characters that are neither whitespace nor `@`, then `@`, then
such a run, then a dot, then such a run; it accepts "a@b.co" and
rejects "a@b", "a b@c.com" and the empty string. -/
theorem isValidEmail_amended :
    (∀ s : List Char, isValidEmail s = true ↔ EmailPattern s)
  ∧ isValidEmail ['a', '@', 'b', '.', 'c', 'o'] = true
  ∧ isValidEmail ['a', '@', 'b'] = false
  ∧ isValidEmail ['a', ' ', 'b', '@', 'c', '.', 'c', 'o', 'm'] = false
  ∧ isValidEmail [] = false :=
  ⟨isValidEmail_iff, by decide, by decide, by decide, by decide⟩

/-! Theorems: orchestrator failure boundary (C1). -/

/-- C1 counterexample: with the first component throwing and the second
well-behaved, the single try/catch makes the throw skip the second
component's `init()` entirely, so the non-throwing component listed
after the throwing one is NOT initialized (zero components complete,
not one). -/
theorem initializeComponents_abort_cex :
    ¬ InitRunsAllNonThrowing [Except.error (), Except.ok ()]
      ∧ initializeComponents [Except.error (), Except.ok ()] = (0, some ()) := by
  constructor
  · show ¬ ((initializeComponents [Except.error (), Except.ok ()]).1
        = [Except.error (), Except.ok ()].countP exceptOk)
    decide
  · rfl

/-- C1 (amended): a throwing `init()` is caught at the orchestrator
boundary and logged (the first thrown error is the logged one, and
nothing propagates), but it DOES abort the `init()` of the components
listed after it: exactly the components before the first throwing one
complete initialization. -/
theorem initializeComponents_boundary {ε : Type} (inits : List (Except ε Unit)) :
    (initializeComponents inits).1 = (inits.takeWhile exceptOk).length
  ∧ (initializeComponents inits).2
      = inits.findSome? (fun r =>
          match r with | Except.error e => some e | Except.ok _ => none) := by
  induction inits with
  | nil => exact ⟨rfl, rfl⟩
  | cons r rest ih =>
    cases r with
    | ok u =>
      cases u
      refine ⟨?_, ?_⟩
      · simp [initializeComponents, List.takeWhile_cons, exceptOk, ih.1]
      · simp [initializeComponents, List.findSome?_cons, ih.2]
    | error e =>
      refine ⟨?_, ?_⟩
      · simp [initializeComponents, List.takeWhile_cons, exceptOk]
      · simp [initializeComponents, List.findSome?_cons]

/-! Theorems: indexed traversal helper. -/

theorem length_mapIdxFrom {α : Type} (f : Nat → α → α) :
    ∀ (k : Nat) (l : List α), (mapIdxFrom f k l).length = l.length
  | _, [] => rfl
  | k, a :: l => by
    simp [mapIdxFrom, length_mapIdxFrom f (k + 1) l]

theorem get?_mapIdxFrom {α : Type} (f : Nat → α → α) :
    ∀ (k m : Nat) (l : List α),
      (mapIdxFrom f k l).get? m = (l.get? m).map (f (k + m))
  | _, _, [] => by simp [mapIdxFrom]
  | k, 0, a :: l => by simp [mapIdxFrom]
  | k, m + 1, a :: l => by
    have ih := get?_mapIdxFrom f (k + 1) m l
    simp only [mapIdxFrom, List.get?_cons_succ, ih]
    have hidx : k + 1 + m = k + (m + 1) := by omega
    rw [hidx]

theorem countP_mapIdxFrom_zero {α : Type} (q : α → Bool) (f : Nat → α → α) (i : Nat)
    (h : ∀ k a, k ≠ i → q (f k a) = false) :
    ∀ (k : Nat) (l : List α), i < k → (mapIdxFrom f k l).countP q = 0
  | _, [], _ => rfl
  | k, a :: l, hk => by
    have hh : q (f k a) = false := h k a (by omega)
    simp [mapIdxFrom, List.countP_cons, hh,
      countP_mapIdxFrom_zero q f i h (k + 1) l (by omega)]

theorem countP_mapIdxFrom_le_one {α : Type} (q : α → Bool) (f : Nat → α → α) (i : Nat)
    (h : ∀ k a, k ≠ i → q (f k a) = false) :
    ∀ (k : Nat) (l : List α), (mapIdxFrom f k l).countP q ≤ 1
  | _, [] => by simp [mapIdxFrom]
  | k, a :: l => by
    by_cases hk : k = i
    · subst hk
      have hz : (mapIdxFrom f (k + 1) l).countP q = 0 :=
        countP_mapIdxFrom_zero q f k h (k + 1) l (by omega)
      simp only [mapIdxFrom, List.countP_cons, hz]
      split <;> omega
    · have hh : q (f k a) = false := h k a hk
      have ih := countP_mapIdxFrom_le_one q f i h (k + 1) l
      simp only [mapIdxFrom, List.countP_cons, hh]
      simpa using ih

theorem countP_mapIdxFrom_mono {α : Type} (q : α → Bool) (f : Nat → α → α)
    (h : ∀ k a, q (f k a) = true → q a = true) :
    ∀ (k : Nat) (l : List α), (mapIdxFrom f k l).countP q ≤ l.countP q
  | _, [] => Nat.le_refl _
  | k, a :: l => by
    have ih := countP_mapIdxFrom_mono q f h (k + 1) l
    have hha := h k a
    simp only [mapIdxFrom, List.countP_cons]
    by_cases hq : q (f k a) = true
    · simp [hq, hha hq]; omega
    · simp only [Bool.not_eq_true] at hq
      simp [hq]
      split <;> omega

/-! Theorems: AudioPlayer mutual exclusion (C2) and progress tick (C9). -/

theorem clickPlay_btnPause_le_one (ps : List PlayerSt) (i : Nat)
    (h : ps.countP (fun p => p.btnPause) ≤ 1) :
    (clickPlay ps i).countP (fun p => p.btnPause) ≤ 1 := by
  rw [clickPlay]
  split
  · exact h
  case h_2 pi hget =>
    cases hb : pi.isPlaying with
    | false =>
      refine countP_mapIdxFrom_le_one _ _ i (fun k a hk => ?_) 0 ps
      simp [hk, hb]
    | true =>
      refine Nat.le_trans (countP_mapIdxFrom_mono _ _ (fun k a hq => ?_) 0 ps) h
      by_cases hk : k = i
      · subst hk; simp [hb] at hq
      · simpa [hk, hb] using hq

theorem runClicks_btnPause_le_one (clicks : List Nat) (ps : List PlayerSt)
    (h : ps.countP (fun p => p.btnPause) ≤ 1) :
    (runClicks ps clicks).countP (fun p => p.btnPause) ≤ 1 := by
  induction clicks generalizing ps with
  | nil => exact h
  | cons i rest ih => exact ih _ (clickPlay_btnPause_le_one ps i h)

/-- C2 counterexample: two players, both idle; clicking play on player
0 and then play on player 1 leaves BOTH `isPlaying` closure flags true
(`playAudio` only resets the other button's icon, never the other
player's flag), and on the next 1000 ms tick BOTH progress counters
advance — two players are simultaneously playing. -/
theorem audioPlayer_two_playing_cex :
    ((runClicks [⟨false, false, 0, 10⟩, ⟨false, false, 0, 10⟩] [0, 1]).map
        (fun p => p.isPlaying)) = [true, true]
  ∧ ((runClicks [⟨false, false, 0, 10⟩, ⟨false, false, 0, 10⟩] [0, 1]).map
        (fun p => (updateProgress p).progress)) = [1, 1] := by
  exact ⟨rfl, rfl⟩

/-- C2 (amended): the mutual exclusion the code enforces is on the play
BUTTONS' visual state: after any sequence of play-button clicks from a
state with at most one button showing pause, at most one button shows
pause, and a play click on an idle player resets every other button to
the play state; but the other players' internal `isPlaying` flags (and
hence their simulated playback) are left untouched, so two players can
be simultaneously playing internally. -/
theorem audioPlayer_button_exclusive (ps : List PlayerSt) (clicks : List Nat)
    (i : Nat) (pi : PlayerSt)
    (hinv : ps.countP (fun p => p.btnPause) ≤ 1)
    (hp : ps.get? i = some pi) (hidle : pi.isPlaying = false) :
    ((runClicks ps clicks).countP (fun p => p.btnPause) ≤ 1)
  ∧ (∀ j pj, j ≠ i → ps.get? j = some pj →
      (clickPlay ps i).get? j = some { pj with btnPause := false })
  ∧ (clickPlay ps i).get? i = some { pi with isPlaying := true, btnPause := true } := by
  refine ⟨runClicks_btnPause_le_one clicks ps hinv, ?_, ?_⟩
  · intro j pj hj hpj
    rw [clickPlay, hp, get?_mapIdxFrom, hpj]
    simp [hj, hidle]
  · rw [clickPlay, hp, get?_mapIdxFrom, hp]
    simp [hidle]

/-- Witness for `audioPlayer_button_exclusive` at a concrete two-player
state. -/
theorem audioPlayer_button_exclusive_witness :
    (([⟨true, true, 3, 10⟩, ⟨false, false, 0, 10⟩] :
        List PlayerSt).countP (fun p => p.btnPause) ≤ 1)
  ∧ ([⟨true, true, 3, 10⟩, ⟨false, false, 0, 10⟩] :
        List PlayerSt).get? 1 = some ⟨false, false, 0, 10⟩
  ∧ (PlayerSt.isPlaying ⟨false, false, 0, 10⟩ = false)
  ∧ (((runClicks [⟨true, true, 3, 10⟩, ⟨false, false, 0, 10⟩] [1, 0]).countP
        (fun p => p.btnPause) ≤ 1)
    ∧ (∀ j pj, j ≠ 1 →
        ([⟨true, true, 3, 10⟩, ⟨false, false, 0, 10⟩] :
          List PlayerSt).get? j = some pj →
        (clickPlay [⟨true, true, 3, 10⟩, ⟨false, false, 0, 10⟩] 1).get? j
          = some { pj with btnPause := false })
    ∧ (clickPlay [⟨true, true, 3, 10⟩, ⟨false, false, 0, 10⟩] 1).get? 1
        = some ⟨true, true, 0, 10⟩) :=
  ⟨by decide, by decide, by decide,
    audioPlayer_button_exclusive _ [1, 0] 1 ⟨false, false, 0, 10⟩
      (by decide) (by decide) (by decide)⟩

/-- C9: one progress tick adds exactly one second iff the player is
playing and strictly below its duration, and otherwise changes nothing:
progress never decreases, never exceeds the duration, and reaching the
duration triggers no stop or loop (the state is simply left as is). -/
theorem audioProgress_tick_spec (p : PlayerSt) (hle : p.progress ≤ p.duration) :
    (((updateProgress p).progress = p.progress + 1)
        ↔ (p.isPlaying = true ∧ p.progress < p.duration))
  ∧ (¬(p.isPlaying = true ∧ p.progress < p.duration) → updateProgress p = p)
  ∧ p.progress ≤ (updateProgress p).progress
  ∧ (updateProgress p).progress ≤ p.duration
  ∧ (updateProgress p).isPlaying = p.isPlaying
  ∧ (updateProgress p).duration = p.duration := by
  by_cases hc : p.isPlaying = true ∧ p.progress < p.duration
  · have hb : (p.isPlaying && decide (p.progress < p.duration)) = true := by
      simp [hc.1, hc.2]
    have hup : updateProgress p = { p with progress := p.progress + 1 } := by
      rw [updateProgress, hb]
      simp
    rw [hup]
    exact ⟨iff_of_true rfl hc, fun hn => absurd hc hn, Nat.le_succ _, hc.2, rfl, rfl⟩
  · have hb : (p.isPlaying && decide (p.progress < p.duration)) = false := by
      by_cases h1 : p.isPlaying = true
      · have h2 : ¬ p.progress < p.duration := fun h2 => hc ⟨h1, h2⟩
        simp [h1, h2]
      · have h1' : p.isPlaying = false := by revert h1; cases p.isPlaying <;> simp
        simp [h1']
    have hup : updateProgress p = p := by
      rw [updateProgress, hb]
      simp
    rw [hup]
    exact ⟨iff_of_false (by omega) hc, fun _ => rfl, Nat.le_refl _, hle, rfl, rfl⟩

/-- Witness for `audioProgress_tick_spec`: a playing player at 3 of 10
seconds. -/
theorem audioProgress_tick_spec_witness :
    ((⟨true, true, 3, 10⟩ : PlayerSt).progress ≤ (⟨true, true, 3, 10⟩ : PlayerSt).duration)
  ∧ ((((updateProgress ⟨true, true, 3, 10⟩).progress = 3 + 1)
        ↔ ((true : Bool) = true ∧ (3 : Nat) < 10))
    ∧ (¬((true : Bool) = true ∧ (3 : Nat) < 10) → updateProgress ⟨true, true, 3, 10⟩ = ⟨true, true, 3, 10⟩)
    ∧ (3 : Nat) ≤ (updateProgress ⟨true, true, 3, 10⟩).progress
    ∧ (updateProgress ⟨true, true, 3, 10⟩).progress ≤ 10
    ∧ (updateProgress ⟨true, true, 3, 10⟩).isPlaying = true
    ∧ (updateProgress ⟨true, true, 3, 10⟩).duration = 10) :=
  ⟨by decide, audioProgress_tick_spec ⟨true, true, 3, 10⟩ (by decide)⟩

/-! Theorems: FAQ exclusive expansion (C3). -/

theorem faqClick_le_one (items : List FaqItem) (i : Nat)
    (h : items.countP (fun it => it.expanded) ≤ 1) :
    (faqClick items i).countP (fun it => it.expanded) ≤ 1 := by
  rw [faqClick]
  split
  · exact h
  · exact countP_mapIdxFrom_le_one _ _ i (fun k a hk => by simp [hk]) 0 items

theorem runFaqClicks_le_one (clicks : List Nat) (items : List FaqItem)
    (h : items.countP (fun it => it.expanded) ≤ 1) :
    (runFaqClicks items clicks).countP (fun it => it.expanded) ≤ 1 := by
  induction clicks generalizing items with
  | nil => exact h
  | cons i rest ih => exact ih _ (faqClick_le_one items i h)

/-- C3: from a state with at most one FAQ item expanded, any sequence
of question clicks keeps at most one item expanded; a click on item `i`
collapses every other item (`aria-expanded=false`, answer
`aria-hidden=true`) and toggles item `i` to the negation of its
previous expanded state (so a click on an already-expanded question
collapses it, and a click on a collapsed question expands exactly
it). -/
theorem faq_accordion_exclusive (items : List FaqItem) (clicks : List Nat)
    (i : Nat) (it : FaqItem)
    (hinv : items.countP (fun x => x.expanded) ≤ 1)
    (hget : items.get? i = some it) :
    ((runFaqClicks items clicks).countP (fun x => x.expanded) ≤ 1)
  ∧ (∀ j, j ≠ i → j < items.length →
      (faqClick items i).get? j = some ⟨false, true⟩)
  ∧ (faqClick items i).get? i = some ⟨!it.expanded, it.expanded⟩ := by
  refine ⟨runFaqClicks_le_one clicks items hinv, ?_, ?_⟩
  · intro j hj hlen
    rw [faqClick, hget, get?_mapIdxFrom]
    cases hq : items.get? j with
    | none => exact absurd (List.get?_eq_none.mp hq) (by omega)
    | some pj => simp [hj]
  · rw [faqClick, hget, get?_mapIdxFrom, hget]
    simp

/-- Witness for `faq_accordion_exclusive`: two items, the first
expanded; clicking item 1 collapses item 0 and expands item 1. -/
theorem faq_accordion_exclusive_witness :
    (([⟨true, false⟩, ⟨false, true⟩] : List FaqItem).countP (fun x => x.expanded) ≤ 1)
  ∧ ([⟨true, false⟩, ⟨false, true⟩] : List FaqItem).get? 1 = some ⟨false, true⟩
  ∧ (((runFaqClicks [⟨true, false⟩, ⟨false, true⟩] [1, 1, 0]).countP
        (fun x => x.expanded) ≤ 1)
    ∧ (∀ j, j ≠ 1 → j < ([⟨true, false⟩, ⟨false, true⟩] : List FaqItem).length →
        (faqClick [⟨true, false⟩, ⟨false, true⟩] 1).get? j = some ⟨false, true⟩)
    ∧ (faqClick [⟨true, false⟩, ⟨false, true⟩] 1).get? 1 = some ⟨true, false⟩) :=
  ⟨by decide, by decide,
    faq_accordion_exclusive [⟨true, false⟩, ⟨false, true⟩] [1, 1, 0] 1 ⟨false, true⟩
      (by decide) (by decide)⟩

/-! Theorems: modal email submission validation gate (C5). -/

/-- C5: a submission whose email fails `isValidEmail` never reaches the
`submitEmail` stub; the modal stays open and the button keeps its label
and disabled flag (only the inline error text and the announcement
change), and the inline error is set to the error message. -/
theorem modal_invalid_email_aborts (st : EmailFormState) (email : List Char)
    (stubFails : Bool) (h : isValidEmail email = false) :
    handleEmailSubmission st email stubFails
      = ({ st with errorText := "Please enter a valid email address" },
         [ModalEffect.announce ("Please enter a valid email address")])
  ∧ (∀ e, ModalEffect.submitEmail e ∉ (handleEmailSubmission st email stubFails).2) := by
  have heq : handleEmailSubmission st email stubFails
      = ({ st with errorText := "Please enter a valid email address" },
         [ModalEffect.announce ("Please enter a valid email address")]) := by
    rw [handleEmailSubmission]
    simp [h]
  exact ⟨heq, fun e => by rw [heq]; simp⟩

/-- Witness for `modal_invalid_email_aborts` on the address "a@b". -/
theorem modal_invalid_email_aborts_witness :
    isValidEmail ['a', '@', 'b'] = false
  ∧ (handleEmailSubmission ⟨"", false, "Subscribe", true⟩ ['a', '@', 'b'] false
      = (⟨"Please enter a valid email address", false, "Subscribe", true⟩,
         [ModalEffect.announce ("Please enter a valid email address")])
    ∧ (∀ e, ModalEffect.submitEmail e ∉
        (handleEmailSubmission ⟨"", false, "Subscribe", true⟩ ['a', '@', 'b'] false).2)) :=
  ⟨by decide,
    modal_invalid_email_aborts ⟨"", false, "Subscribe", true⟩ ['a', '@', 'b'] false (by decide)⟩

/-! Theorems: contact form validation gate (C6). -/

/-- C6: when any required field fails `validateField`, the contact
submission stub is never invoked, the correction announcement is the
only effect, and the submit button's label and disabled flag are
unchanged. -/
theorem contact_invalid_aborts (btn : SubmitBtn) (inputs : List Field)
    (f : Field) (hf : f ∈ inputs) (hv : (validateField f).1 = false) :
    handleContactSubmission btn inputs
      = (btn, [FormEffect.announce ("Please correct the errors in the form")])
  ∧ FormEffect.submitContactForm ∉ (handleContactSubmission btn inputs).2 := by
  have hall : (inputs.all fun g => (validateField g).1) = false := by
    by_contra hcon
    have htrue : (inputs.all fun g => (validateField g).1) = true := by
      revert hcon
      cases inputs.all fun g => (validateField g).1 <;> simp
    exact absurd (List.all_eq_true.mp htrue f hf) (by simp [hv])
  have heq : handleContactSubmission btn inputs
      = (btn, [FormEffect.announce ("Please correct the errors in the form")]) := by
    rw [handleContactSubmission]
    simp [hall]
  exact ⟨heq, by rw [heq]; simp⟩

/-- Witness for `contact_invalid_aborts`: one required, empty field. -/
theorem contact_invalid_aborts_witness :
    (⟨true, [], false⟩ : Field) ∈ [(⟨true, [], false⟩ : Field)]
  ∧ (validateField ⟨true, [], false⟩).1 = false
  ∧ (handleContactSubmission ⟨false, "Send"⟩ [⟨true, [], false⟩]
      = (⟨false, "Send"⟩, [FormEffect.announce ("Please correct the errors in the form")])
    ∧ FormEffect.submitContactForm ∉
        (handleContactSubmission ⟨false, "Send"⟩ [⟨true, [], false⟩]).2) :=
  ⟨by decide, by decide,
    contact_invalid_aborts ⟨false, "Send"⟩ [⟨true, [], false⟩] ⟨true, [], false⟩
      (by decide) (by decide)⟩

/-! Theorems: debounce is trailing-edge (C7). -/

theorem debounceRun_burst {α : Type} (wait : Nat) :
    ∀ (c : Nat × α) (cs : List (Nat × α)), burst wait (c :: cs) = true →
      debounceRun wait cs (some (c.1 + wait, c.2))
        = [((cs.getLastD c).1 + wait, (cs.getLastD c).2)]
  | c, [], _ => by simp [debounceRun, List.getLastD]
  | (t1, a1), (t2, a2) :: rest, hb => by
    have hb' : (decide (t1 ≤ t2) && decide (t2 < t1 + wait)
        && burst wait ((t2, a2) :: rest)) = true := hb
    simp only [Bool.and_eq_true, decide_eq_true_eq] at hb'
    obtain ⟨⟨h12, hlt⟩, htail⟩ := hb'
    have hnle : ¬ t1 + wait ≤ t2 := by omega
    rw [debounceRun]
    rw [if_neg hnle]
    have ih := debounceRun_burst wait (t2, a2) rest htail
    rw [ih]
    rw [List.getLastD_cons]

/-- C7: for a burst of one or more wrapper calls each within the wait
window of the previous, the wrapped function fires exactly once, at the
time of the LAST call plus the wait, with the last call's arguments —
never on the leading edge. -/
theorem debounce_trailing_edge {α : Type} (wait : Nat) (c : Nat × α)
    (cs : List (Nat × α)) (hb : burst wait (c :: cs) = true) :
    debounce wait (c :: cs)
      = [((cs.getLastD c).1 + wait, (cs.getLastD c).2)] := by
  rw [debounce, debounceRun]
  exact debounceRun_burst wait c cs hb

/-- Witness for `debounce_trailing_edge`: three calls at 0, 5 and 9 ms
with a 10 ms wait fire once, at 19 ms, with the last argument. -/
theorem debounce_trailing_edge_witness :
    burst 10 [((0 : Nat), (1 : Nat)), (5, 2), (9, 3)] = true
  ∧ debounce 10 [((0 : Nat), (1 : Nat)), (5, 2), (9, 3)] = [(19, 3)] :=
  ⟨by decide, debounce_trailing_edge 10 (0, 1) [(5, 2), (9, 3)] (by decide)⟩

/-! Theorems: throttle is leading-edge (C8). -/

theorem throttleRun_blocked {α : Type} (limit : Nat) :
    ∀ (cs : List (Nat × α)) (r : Nat), (∀ p ∈ cs, p.1 < r) →
      throttleRun limit cs (some r) = []
  | [], _, _ => rfl
  | (t, a) :: rest, r, h => by
    have hnle : ¬ r ≤ t := by
      have := h (t, a) (List.mem_cons_self _ _)
      omega
    rw [throttleRun, if_neg hnle]
    exact throttleRun_blocked limit rest r fun p hp => h p (List.mem_cons_of_mem _ hp)

theorem throttleRun_blocked_append {α : Type} (limit : Nat) :
    ∀ (cs : List (Nat × α)) (late : Nat × α) (r : Nat),
      (∀ p ∈ cs, p.1 < r) → r ≤ late.1 →
      throttleRun limit (cs ++ [late]) (some r) = [late]
  | [], late, r, _, hr => by
    rw [List.nil_append, throttleRun, if_pos hr]
    rfl
  | (t, a) :: rest, late, r, h, hr => by
    have hnle : ¬ r ≤ t := by
      have := h (t, a) (List.mem_cons_self _ _)
      omega
    rw [List.cons_append, throttleRun, if_neg hnle]
    exact throttleRun_blocked_append limit rest late r
      (fun p hp => h p (List.mem_cons_of_mem _ hp)) hr

/-- C8: for a burst of calls all strictly within `limit` of the first,
the wrapped function fires exactly once, synchronously on the FIRST
call with its arguments; every later call of the burst is discarded,
and the first call at or after the window's end fires immediately
again. -/
theorem throttle_leading_edge {α : Type} (limit : Nat) (c : Nat × α)
    (cs : List (Nat × α)) (hcs : ∀ p ∈ cs, p.1 < c.1 + limit) :
    throttle limit (c :: cs) = [c]
  ∧ (∀ late : Nat × α, c.1 + limit ≤ late.1 →
      throttle limit (c :: cs ++ [late]) = [c, late]) := by
  constructor
  · rw [throttle, throttleRun, throttleRun_blocked limit cs (c.1 + limit) hcs]
  · intro late hlate
    rw [throttle, List.cons_append, throttleRun,
      throttleRun_blocked_append limit cs late (c.1 + limit) hcs hlate]

/-- Witness for `throttle_leading_edge`: calls at 0, 3 and 9 ms with a
10 ms limit fire once at 0 ms; a further call at 10 ms fires again. -/
theorem throttle_leading_edge_witness :
    (∀ p ∈ [((3 : Nat), (2 : Nat)), (9, 3)], p.1 < 0 + 10)
  ∧ (throttle 10 [((0 : Nat), (1 : Nat)), (3, 2), (9, 3)] = [(0, 1)]
    ∧ (∀ late : Nat × Nat, 0 + 10 ≤ late.1 →
        throttle 10 ([((0 : Nat), (1 : Nat)), (3, 2), (9, 3)] ++ [late])
          = [(0, 1), late])) := by
  refine ⟨by decide, ?_⟩
  have h := throttle_leading_edge 10 ((0 : Nat), (1 : Nat)) [(3, 2), (9, 3)] (by decide)
  exact ⟨h.1, fun late hl => h.2 late hl⟩

/-! Theorems: smooth-scroll header dereference (C10). -/

/-- C10: with an existing scroll target but no header element in the
document, the smooth-scroll click handler throws a TypeError — the
`|| 0` fallback guards only a falsy `offsetHeight`, as the second
conjunct shows (any present header, height 0 included, scrolls to
`offsetTop - offsetHeight - 20`); without a target the handler does
nothing. -/
theorem smoothScroll_missing_header_throws (top : Int) :
    smoothScrollClick (some top) none = Except.error JsError.typeError
  ∧ (∀ h : Int, smoothScrollClick (some top) (some h)
      = Except.ok (some (top - h - 20)))
  ∧ (∀ header : Option Int, smoothScrollClick none header = Except.ok none) := by
  refine ⟨rfl, ?_, fun _ => rfl⟩
  intro h
  by_cases hz : h = 0
  · subst hz
    rfl
  · simp [smoothScrollClick, hz]

end Pot
